import Mathlib

/-!
Verification of the composite QA evaluator in
src/src/promptflow-evals/promptflow/evals/evaluators/qa (single module).

The Python class QAEvaluator stores a boolean flag and a list of six
sub-evaluator instances.  Its call method hands one input tuple to every
sub-evaluator and merges the returned metric dictionaries with dict.update:
sequentially in list order when the flag is false, in thread-pool completion
order when it is true.  The embedding below models Python dictionaries as
association lists with the exact dict.update semantics, sub-evaluators as
functions from the input record to either a result dictionary or a raised
error, and the nondeterministic completion order of as_completed as an
explicit permutation parameter of the call.
-/

/-- First-some choice on options; used to say which binding wins a merge. -/
def altO {α : Type} (a b : Option α) : Option α :=
  match a with
  | some v => some v
  | none => b

/-- A Python dictionary with string keys, embedded as an association list in
insertion order.  A dictionary built by Python has no duplicate key rows; the
operations below are faithful to Python also when a list has duplicates. -/
abbrev Dict (α : Type) : Type := List (String × α)

/-- Embeds the Python read `d[k]` (as an Option): the first binding of `k`. -/
def Dict.lookup {α : Type} (d : Dict α) (k : String) : Option α :=
  match d with
  | [] => none
  | (key, v) :: rest => if key = k then some v else Dict.lookup rest k

/-- The key list of a dictionary, in insertion order. -/
def Dict.keys {α : Type} (d : Dict α) : List String :=
  d.map Prod.fst

/-- Embeds the Python write `d[k] = v`: replace in place when the key is
present, append at the end otherwise. -/
def Dict.setItem {α : Type} (d : Dict α) (k : String) (v : α) : Dict α :=
  match d with
  | [] => [(k, v)]
  | (key, w) :: rest =>
    if key = k then (key, v) :: rest else (key, w) :: Dict.setItem rest k v

/-- Embeds the Python call `d.update(e)`: write every binding of `e` into
`d`, in the order of `e`. -/
def Dict.update {α : Type} (d : Dict α) : Dict α → Dict α
  | [] => d
  | (k, v) :: rest => Dict.update (Dict.setItem d k v) rest

/-- The binding of `k` the LAST row of `d` carrying `k` holds.  On a genuine
Python dictionary (no duplicate key rows) this agrees with `Dict.lookup`. -/
def Dict.lookupLast {α : Type} (d : Dict α) (k : String) : Option α :=
  match d with
  | [] => none
  | (key, v) :: rest =>
    altO (Dict.lookupLast rest k) (if key = k then some v else none)

/-- The keyword arguments of one call of the scorer: the four required
string fields of `QAEvaluator.__call__` plus the extra named arguments
(`**kwargs`), carried opaquely by the type `κ`. -/
structure QAInput (κ : Type) where
  question : String
  answer : String
  context : String
  ground_truth : String
  kwargs : κ

/-- A sub-evaluator instance: a callable taking the full named-argument
record and returning a metric dictionary, or raising an error of type ε. -/
abbrev Evaluator (κ α ε : Type) : Type :=
  QAInput κ → Except ε (Dict α)

/-- The state of a QAEvaluator instance: the two attributes `__init__`
assigns, `self._parallel` and `self._evaluators`. -/
structure QAEvaluator (κ α ε : Type) where
  _parallel : Bool
  _evaluators : List (Evaluator κ α ε)

/-- The six imported evaluator classes, modelled by what `__init__` consumes
of them: one constructor call each.  Five take the model configuration; the
F1 score class is constructed without arguments. -/
structure EvaluatorClasses (Config κ α ε : Type) where
  GroundednessEvaluator : Config → Evaluator κ α ε
  RelevanceEvaluator : Config → Evaluator κ α ε
  CoherenceEvaluator : Config → Evaluator κ α ε
  FluencyEvaluator : Config → Evaluator κ α ε
  SimilarityEvaluator : Config → Evaluator κ α ε
  F1ScoreEvaluator : Evaluator κ α ε

/-- The six evaluator classes again, with fallible constructors, to model
that a constructor call inside `__init__` may itself raise. -/
structure EvaluatorClassesF (Config κ α ε : Type) where
  GroundednessEvaluator : Config → Except ε (Evaluator κ α ε)
  RelevanceEvaluator : Config → Except ε (Evaluator κ α ε)
  CoherenceEvaluator : Config → Except ε (Evaluator κ α ε)
  FluencyEvaluator : Config → Except ε (Evaluator κ α ε)
  SimilarityEvaluator : Config → Except ε (Evaluator κ α ε)
  F1ScoreEvaluator : Except ε (Evaluator κ α ε)

/-- The default value of the `parallel` keyword of `__init__`
(`parallel: bool = True` in the source). -/
def parallelDefault : Bool := true

/-- Embeds `QAEvaluator.__init__(model_config, parallel)`: set the flag and
build the evaluator list, in source order Groundedness, Relevance,
Coherence, Fluency, Similarity, F1Score; the first five constructors receive
`model_config`, the last receives nothing. -/
def QAEvaluator.init {Config κ α ε : Type} (C : EvaluatorClasses Config κ α ε)
    (model_config : Config) (parallel : Bool) : QAEvaluator κ α ε :=
  ⟨parallel,
    [C.GroundednessEvaluator model_config,
     C.RelevanceEvaluator model_config,
     C.CoherenceEvaluator model_config,
     C.FluencyEvaluator model_config,
     C.SimilarityEvaluator model_config,
     C.F1ScoreEvaluator]⟩

/-- Embeds `QAEvaluator(model_config)` called without the `parallel`
keyword, which therefore takes its default value. -/
def QAEvaluator.initDefault {Config κ α ε : Type}
    (C : EvaluatorClasses Config κ α ε) (model_config : Config) :
    QAEvaluator κ α ε :=
  QAEvaluator.init C model_config parallelDefault

/-- Embeds `__init__` over fallible constructors: the list literal of the
source evaluates the six constructor calls in order and the first raise
propagates out of `__init__` unchanged. -/
def QAEvaluator.initF {Config κ α ε : Type} (C : EvaluatorClassesF Config κ α ε)
    (model_config : Config) (parallel : Bool) : Except ε (QAEvaluator κ α ε) :=
  match C.GroundednessEvaluator model_config with
  | Except.error e => Except.error e
  | Except.ok g =>
    match C.RelevanceEvaluator model_config with
    | Except.error e => Except.error e
    | Except.ok r =>
      match C.CoherenceEvaluator model_config with
      | Except.error e => Except.error e
      | Except.ok c =>
        match C.FluencyEvaluator model_config with
        | Except.error e => Except.error e
        | Except.ok f =>
          match C.SimilarityEvaluator model_config with
          | Except.error e => Except.error e
          | Except.ok s =>
            match C.F1ScoreEvaluator with
            | Except.error e => Except.error e
            | Except.ok f1 => Except.ok ⟨parallel, [g, r, c, f, s, f1]⟩

/-- Embeds the merge loop of `__call__`: starting from the accumulator
`results`, invoke each evaluator of the list in order on `input` and fold
its dictionary in with `results.update(...)`; the first raised error aborts
the loop and propagates.  The sequential branch runs this on
`self._evaluators`; the parallel branch runs it on the completion order. -/
def seqRun {κ α ε : Type} (evaluators : List (Evaluator κ α ε))
    (input : QAInput κ) (results : Dict α) : Except ε (Dict α) :=
  match evaluators with
  | [] => Except.ok results
  | evaluator :: rest =>
    match evaluator input with
    | Except.error e => Except.error e
    | Except.ok d => seqRun rest input (Dict.update results d)

/-- Embeds `QAEvaluator.__call__`.  `order` models the completion order the
thread pool and `as_completed` produce in the parallel branch: the theorems
constrain it to a permutation of `self._evaluators`.  The sequential branch
ignores it and iterates `self._evaluators` in list order.  Both branches
start from `results = {}`. -/
def QAEvaluator.call {κ α ε : Type} (self : QAEvaluator κ α ε)
    (order : List (Evaluator κ α ε)) (input : QAInput κ) : Except ε (Dict α) :=
  if self._parallel then seqRun order input [] else seqRun self._evaluators input []

/-- Embeds `__call__` together with its effect on the instance: the method
body assigns no attribute of `self`, so the post state is `self` itself. -/
def QAEvaluator.callSt {κ α ε : Type} (self : QAEvaluator κ α ε)
    (order : List (Evaluator κ α ε)) (input : QAInput κ) :
    Except ε (Dict α) × QAEvaluator κ α ε :=
  (QAEvaluator.call self order input, self)

/-- The dictionary a given evaluator emits for key `k` on `input`, none when
it raises or omits the key. -/
def evalOut {κ α ε : Type} (input : QAInput κ) (ev : Evaluator κ α ε)
    (k : String) : Option α :=
  match ev input with
  | Except.ok d => Dict.lookupLast d k
  | Except.error _ => none

/-- The binding of `k` held by the LAST evaluator of the list that emits
`k`, the winner of the merge in that order. -/
def lastOut {κ α ε : Type} (evaluators : List (Evaluator κ α ε))
    (input : QAInput κ) (k : String) : Option α :=
  match evaluators with
  | [] => none
  | ev :: rest => altO (lastOut rest input k) (evalOut input ev k)

/-- The binding of `k` held by the last dictionary of the list whose key set
contains `k`: the value the specification promises on a key collision. -/
def lastEmitter {α : Type} (ds : List (Dict α)) (k : String) : Option α :=
  match ds with
  | [] => none
  | d :: rest => altO (lastEmitter rest k) (Dict.lookup d k)

/-- A mock evaluator that succeeds and reports the exact named-argument
record it received, under the metric name `key`. -/
def spyEvaluator {κ ε : Type} (key : String) : Evaluator κ (QAInput κ) ε :=
  fun input => Except.ok [(key, input)]

/-- Six mock evaluators reporting under six metric names. -/
def spyList {κ ε : Type} (key : Fin 6 → String) :
    List (Evaluator κ (QAInput κ) ε) :=
  [spyEvaluator (key 0), spyEvaluator (key 1), spyEvaluator (key 2),
   spyEvaluator (key 3), spyEvaluator (key 4), spyEvaluator (key 5)]

/-- A concrete input tuple, the scenario of the specification. -/
def wIn : QAInput Unit :=
  ⟨"Tokyo is the capital of which country?", "Japan",
   "Tokyo is the capital of Japan.", "Japan", ()⟩

/-- A concrete groundedness evaluator used to instantiate the theorems. -/
def wG : Evaluator Unit Nat String :=
  fun _ => Except.ok [("gpt_groundedness", 1)]

/-- A concrete relevance evaluator used to instantiate the theorems. -/
def wR : Evaluator Unit Nat String :=
  fun _ => Except.ok [("gpt_relevance", 2)]

/-- A concrete coherence evaluator used to instantiate the theorems. -/
def wC : Evaluator Unit Nat String :=
  fun _ => Except.ok [("gpt_coherence", 3)]

/-- A concrete fluency evaluator used to instantiate the theorems. -/
def wF : Evaluator Unit Nat String :=
  fun _ => Except.ok [("gpt_fluency", 4)]

/-- A concrete similarity evaluator; it also emits the colliding metric name
score, to exercise the last-writer-wins merge. -/
def wS : Evaluator Unit Nat String :=
  fun _ => Except.ok [("score", 5), ("gpt_similarity", 5)]

/-- A concrete F1 evaluator; it also emits the colliding metric name score. -/
def wF1 : Evaluator Unit Nat String :=
  fun _ => Except.ok [("score", 6), ("f1_score", 6)]

/-- A concrete evaluator that raises. -/
def wBad : Evaluator Unit Nat String :=
  fun _ => Except.error "boom"

/-- Concrete evaluator classes whose constructors return the evaluators
above. -/
def wClasses : EvaluatorClasses Unit Unit Nat String :=
  ⟨fun _ => wG, fun _ => wR, fun _ => wC, fun _ => wF, fun _ => wS, wF1⟩

/-- Concrete fallible evaluator classes whose constructors all succeed. -/
def wClassesF : EvaluatorClassesF Unit Unit Nat String :=
  ⟨fun _ => Except.ok wG, fun _ => Except.ok wR, fun _ => Except.ok wC,
   fun _ => Except.ok wF, fun _ => Except.ok wS, Except.ok wF1⟩

/-- Six concrete distinct metric names for the mock evaluators. -/
def wKeyList : List String := ["m0", "m1", "m2", "m3", "m4", "m5"]

/-- Six concrete distinct metric names, indexed. -/
def wKey : Fin 6 → String :=
  fun i => wKeyList.get (Fin.cast rfl i)

/-- A concrete input with empty required fields and a nonempty extra
keyword dictionary, for the forwarding theorem. -/
def wIn5 : QAInput (Dict Nat) := ⟨"", "", "", "", [("extra", 7)]⟩

theorem altO_none_left {α : Type} (b : Option α) : altO none b = b := rfl

theorem altO_none_right {α : Type} (a : Option α) : altO a none = a := by
  cases a <;> rfl

theorem altO_assoc {α : Type} (a b c : Option α) :
    altO (altO a b) c = altO a (altO b c) := by
  cases a <;> simp [altO]

theorem altO_isSome {α : Type} (a b : Option α) :
    (altO a b).isSome = (a.isSome || b.isSome) := by
  cases a <;> simp [altO]

theorem Dict.lookup_setItem {α : Type} (d : Dict α) (k : String) (v : α)
    (q : String) :
    Dict.lookup (Dict.setItem d k v) q = if k = q then some v else Dict.lookup d q := by
  induction d with
  | nil => simp [Dict.setItem, Dict.lookup]
  | cons kv rest ih =>
    obtain ⟨key, w⟩ := kv
    by_cases h : key = k
    · subst h
      by_cases hq : key = q <;> simp [Dict.setItem, Dict.lookup, hq]
    · by_cases hq : key = q
      · subst hq
        have hk : ¬k = key := fun hh => h hh.symm
        simp [Dict.setItem, Dict.lookup, h, hk]
      · simp [Dict.setItem, Dict.lookup, h, hq, ih]

theorem Dict.lookup_update {α : Type} (d e : Dict α) (k : String) :
    Dict.lookup (Dict.update d e) k = altO (Dict.lookupLast e k) (Dict.lookup d k) := by
  induction e generalizing d with
  | nil => simp [Dict.update, Dict.lookupLast, altO]
  | cons kv rest ih =>
    obtain ⟨key, v⟩ := kv
    simp only [Dict.update, Dict.lookupLast]
    rw [ih, Dict.lookup_setItem]
    cases hLL : Dict.lookupLast rest k with
    | some w => simp [altO]
    | none =>
      by_cases hq : key = k <;> simp [altO, hq]

theorem Dict.lookupLast_isSome {α : Type} (d : Dict α) (k : String) :
    (Dict.lookupLast d k).isSome = (Dict.lookup d k).isSome := by
  induction d with
  | nil => rfl
  | cons kv rest ih =>
    obtain ⟨key, v⟩ := kv
    by_cases h : key = k <;>
      simp [Dict.lookupLast, Dict.lookup, altO_isSome, ih, h, Bool.or_comm]

theorem Dict.lookup_eq_none {α : Type} (d : Dict α) (k : String) :
    Dict.lookup d k = none ↔ k ∉ Dict.keys d := by
  induction d with
  | nil => simp [Dict.lookup, Dict.keys]
  | cons kv rest ih =>
    obtain ⟨key, v⟩ := kv
    by_cases h : key = k <;> simp [Dict.lookup, Dict.keys, h, ih] <;> simp_all [eq_comm]

theorem Dict.lookupLast_nodup {α : Type} (d : Dict α) (k : String)
    (h : (Dict.keys d).Nodup) : Dict.lookupLast d k = Dict.lookup d k := by
  induction d with
  | nil => rfl
  | cons kv rest ih =>
    obtain ⟨key, v⟩ := kv
    simp only [Dict.keys, List.map_cons, List.nodup_cons] at h
    obtain ⟨hmem, hrest⟩ := h
    by_cases hk : key = k
    · subst hk
      have hnone : Dict.lookup rest key = none :=
        (Dict.lookup_eq_none rest key).2 hmem
      have h2 : Dict.lookupLast rest key = none := by
        cases hx : Dict.lookupLast rest key with
        | none => rfl
        | some w =>
          have hs := Dict.lookupLast_isSome rest key
          rw [hx, hnone] at hs
          simp at hs
      simp [Dict.lookupLast, Dict.lookup, h2, altO]
    · simp [Dict.lookupLast, Dict.lookup, hk, ih hrest, altO_none_right]

theorem seqRun_ok_forall {κ α ε : Type} (evaluators : List (Evaluator κ α ε))
    (input : QAInput κ) (acc r : Dict α)
    (h : seqRun evaluators input acc = Except.ok r) :
    ∀ ev ∈ evaluators, ∃ d, ev input = Except.ok d := by
  induction evaluators generalizing acc with
  | nil => simp
  | cons ev rest ih =>
    intro e he
    rw [seqRun] at h
    cases hev : ev input with
    | error err =>
      rw [hev] at h
      simp at h
    | ok d =>
      rw [hev] at h
      simp only [] at h
      rcases List.mem_cons.1 he with rfl | hmem
      · exact ⟨d, hev⟩
      · exact ih _ h e hmem

theorem seqRun_error_mem {κ α ε : Type} (evaluators : List (Evaluator κ α ε))
    (input : QAInput κ) (acc : Dict α) (e : ε)
    (h : seqRun evaluators input acc = Except.error e) :
    ∃ ev ∈ evaluators, ev input = Except.error e := by
  induction evaluators generalizing acc with
  | nil => simp [seqRun] at h
  | cons ev rest ih =>
    rw [seqRun] at h
    cases hev : ev input with
    | error err =>
      rw [hev] at h
      simp only [Except.error.injEq] at h
      exact ⟨ev, List.mem_cons_self ev rest, by rw [hev, h]⟩
    | ok d =>
      rw [hev] at h
      simp only [] at h
      obtain ⟨e2, hm, he2⟩ := ih _ h
      exact ⟨e2, List.mem_cons_of_mem _ hm, he2⟩

theorem seqRun_lookup {κ α ε : Type} (evaluators : List (Evaluator κ α ε))
    (input : QAInput κ) (acc : Dict α)
    (h : ∀ ev ∈ evaluators, ∃ d, ev input = Except.ok d) :
    ∃ r, seqRun evaluators input acc = Except.ok r ∧
      ∀ k, Dict.lookup r k = altO (lastOut evaluators input k) (Dict.lookup acc k) := by
  induction evaluators generalizing acc with
  | nil => exact ⟨acc, rfl, fun k => rfl⟩
  | cons ev rest ih =>
    obtain ⟨d, hd⟩ := h ev (List.mem_cons_self ev rest)
    have hrest : ∀ e ∈ rest, ∃ d2, e input = Except.ok d2 :=
      fun e he => h e (List.mem_cons_of_mem _ he)
    obtain ⟨r, hr, hlook⟩ := ih (Dict.update acc d) hrest
    refine ⟨r, ?_, ?_⟩
    · rw [seqRun, hd]
      exact hr
    · intro k
      rw [hlook k, Dict.lookup_update]
      simp [lastOut, evalOut, hd, altO_assoc]

theorem seqRun_error_of_mem {κ α ε : Type} (evaluators : List (Evaluator κ α ε))
    (input : QAInput κ) (acc : Dict α)
    (h : ∃ ev ∈ evaluators, ∃ e0, ev input = Except.error e0) :
    ∃ e, seqRun evaluators input acc = Except.error e ∧
      ∃ ev ∈ evaluators, ev input = Except.error e := by
  cases hres : seqRun evaluators input acc with
  | ok r =>
    obtain ⟨ev, hm, e0, he⟩ := h
    obtain ⟨d, hd⟩ := seqRun_ok_forall _ _ _ _ hres ev hm
    rw [hd] at he
    cases he
  | error e => exact ⟨e, rfl, seqRun_error_mem _ _ _ _ hres⟩

theorem seqRun_append_error {κ α ε : Type} (pre : List (Evaluator κ α ε))
    (ev : Evaluator κ α ε) (post : List (Evaluator κ α ε)) (input : QAInput κ)
    (acc : Dict α) (e : ε)
    (hpre : ∀ p ∈ pre, ∃ d, p input = Except.ok d)
    (hev : ev input = Except.error e) :
    seqRun (pre ++ ev :: post) input acc = Except.error e := by
  induction pre generalizing acc with
  | nil =>
    rw [List.nil_append, seqRun, hev]
  | cons p rest ih =>
    obtain ⟨d, hd⟩ := hpre p (List.mem_cons_self p rest)
    rw [List.cons_append, seqRun, hd]
    exact ih _ (fun q hq => hpre q (List.mem_cons_of_mem _ hq))

theorem lastOut_isSome {κ α ε : Type} (evaluators : List (Evaluator κ α ε))
    (input : QAInput κ) (k : String) :
    (lastOut evaluators input k).isSome = true ↔
      ∃ ev ∈ evaluators, ∃ d, ev input = Except.ok d ∧
        (Dict.lookup d k).isSome = true := by
  induction evaluators with
  | nil => simp [lastOut]
  | cons ev rest ih =>
    simp only [lastOut, altO_isSome, Bool.or_eq_true, ih]
    cases hev : ev input with
    | error err =>
      simp [evalOut, hev, List.mem_cons, or_and_right, exists_or]
    | ok d =>
      simp [evalOut, hev, Dict.lookupLast_isSome, List.mem_cons, or_and_right,
        exists_or, or_comm]

theorem lastOut_isSome_perm {κ α ε : Type}
    (order evaluators : List (Evaluator κ α ε)) (input : QAInput κ) (k : String)
    (h : List.Perm order evaluators) :
    ((lastOut order input k).isSome = true) ↔
      ((lastOut evaluators input k).isSome = true) := by
  rw [lastOut_isSome, lastOut_isSome]
  constructor
  · rintro ⟨ev, hm, hrest⟩
    exact ⟨ev, h.mem_iff.1 hm, hrest⟩
  · rintro ⟨ev, hm, hrest⟩
    exact ⟨ev, h.mem_iff.2 hm, hrest⟩

theorem lastOut_none {κ α ε : Type} (evaluators : List (Evaluator κ α ε))
    (input : QAInput κ) (k : String)
    (h : ∀ ev ∈ evaluators, evalOut input ev k = none) :
    lastOut evaluators input k = none := by
  induction evaluators with
  | nil => rfl
  | cons ev rest ih =>
    simp [lastOut, ih (fun e he => h e (List.mem_cons_of_mem _ he)),
      h ev (List.mem_cons_self ev rest), altO]

theorem lastOut_unique {κ α ε : Type} (evaluators : List (Evaluator κ α ε))
    (input : QAInput κ) (k : String) (v : α)
    (hall : ∀ ev ∈ evaluators, evalOut input ev k = none ∨ evalOut input ev k = some v)
    (hex : ∃ ev ∈ evaluators, evalOut input ev k = some v) :
    lastOut evaluators input k = some v := by
  induction evaluators with
  | nil =>
    obtain ⟨ev, hm, _⟩ := hex
    simp at hm
  | cons ev rest ih =>
    by_cases hr : ∃ e ∈ rest, evalOut input e k = some v
    · have hrec := ih (fun e he => hall e (List.mem_cons_of_mem _ he)) hr
      simp [lastOut, hrec, altO]
    · have hnone : lastOut rest input k = none := by
        apply lastOut_none
        intro e he
        rcases hall e (List.mem_cons_of_mem _ he) with h0 | h0
        · exact h0
        · exact absurd ⟨e, he, h0⟩ hr
      have hhead : evalOut input ev k = some v := by
        obtain ⟨e, hm, he⟩ := hex
        rcases List.mem_cons.1 hm with rfl | hmem
        · exact he
        · exact absurd ⟨e, hmem, he⟩ hr
      simp [lastOut, hnone, hhead, altO]

theorem evalOut_ok {κ α ε : Type} {ev : Evaluator κ α ε} {input : QAInput κ}
    {d : Dict α} (h : ev input = Except.ok d) (k : String) :
    evalOut input ev k = Dict.lookupLast d k := by
  simp [evalOut, h]

theorem seqSix_lookup {κ α ε : Type} (e1 e2 e3 e4 e5 e6 : Evaluator κ α ε)
    (input : QAInput κ) (d1 d2 d3 d4 d5 d6 : Dict α)
    (h1 : e1 input = Except.ok d1) (h2 : e2 input = Except.ok d2)
    (h3 : e3 input = Except.ok d3) (h4 : e4 input = Except.ok d4)
    (h5 : e5 input = Except.ok d5) (h6 : e6 input = Except.ok d6)
    (n1 : (Dict.keys d1).Nodup) (n2 : (Dict.keys d2).Nodup)
    (n3 : (Dict.keys d3).Nodup) (n4 : (Dict.keys d4).Nodup)
    (n5 : (Dict.keys d5).Nodup) (n6 : (Dict.keys d6).Nodup) :
    ∃ r, seqRun [e1, e2, e3, e4, e5, e6] input [] = Except.ok r ∧
      ∀ k, Dict.lookup r k = lastEmitter [d1, d2, d3, d4, d5, d6] k := by
  have hall : ∀ ev ∈ [e1, e2, e3, e4, e5, e6], ∃ d, ev input = Except.ok d := by
    intro ev hm
    simp only [List.mem_cons, List.not_mem_nil, or_false] at hm
    rcases hm with rfl | rfl | rfl | rfl | rfl | rfl
    · exact ⟨d1, h1⟩
    · exact ⟨d2, h2⟩
    · exact ⟨d3, h3⟩
    · exact ⟨d4, h4⟩
    · exact ⟨d5, h5⟩
    · exact ⟨d6, h6⟩
  obtain ⟨r, hr, hlook⟩ := seqRun_lookup _ input [] hall
  refine ⟨r, hr, fun k => ?_⟩
  rw [hlook k]
  simp only [lastOut, lastEmitter, evalOut_ok h1 k, evalOut_ok h2 k,
    evalOut_ok h3 k, evalOut_ok h4 k, evalOut_ok h5 k, evalOut_ok h6 k,
    Dict.lookupLast_nodup d1 k n1, Dict.lookupLast_nodup d2 k n2,
    Dict.lookupLast_nodup d3 k n3, Dict.lookupLast_nodup d4 k n4,
    Dict.lookupLast_nodup d5 k n5, Dict.lookupLast_nodup d6 k n6,
    Dict.lookup, altO_none_right, altO_none_left]

/-- C1: for every input tuple and every family of six collaborators that
all succeed (each returning a genuine dictionary), the sequential-mode call
returns a dictionary whose key set is the union of the six key sets, and
whose value at every key is the value of the last collaborator in
construction-list order that emits that key (`lastEmitter`). -/
theorem seq_merge_union_last_wins {κ α ε : Type}
    (e1 e2 e3 e4 e5 e6 : Evaluator κ α ε) (input : QAInput κ)
    (order : List (Evaluator κ α ε)) (d1 d2 d3 d4 d5 d6 : Dict α)
    (h1 : e1 input = Except.ok d1) (h2 : e2 input = Except.ok d2)
    (h3 : e3 input = Except.ok d3) (h4 : e4 input = Except.ok d4)
    (h5 : e5 input = Except.ok d5) (h6 : e6 input = Except.ok d6)
    (n1 : (Dict.keys d1).Nodup) (n2 : (Dict.keys d2).Nodup)
    (n3 : (Dict.keys d3).Nodup) (n4 : (Dict.keys d4).Nodup)
    (n5 : (Dict.keys d5).Nodup) (n6 : (Dict.keys d6).Nodup) :
    ∃ r, QAEvaluator.call ⟨false, [e1, e2, e3, e4, e5, e6]⟩ order input = Except.ok r ∧
      (∀ k, Dict.lookup r k = lastEmitter [d1, d2, d3, d4, d5, d6] k) ∧
      (∀ k, (Dict.lookup r k).isSome = true ↔
        ((Dict.lookup d1 k).isSome = true ∨ (Dict.lookup d2 k).isSome = true ∨
         (Dict.lookup d3 k).isSome = true ∨ (Dict.lookup d4 k).isSome = true ∨
         (Dict.lookup d5 k).isSome = true ∨ (Dict.lookup d6 k).isSome = true)) := by
  obtain ⟨r, hr, hlook⟩ :=
    seqSix_lookup e1 e2 e3 e4 e5 e6 input d1 d2 d3 d4 d5 d6
      h1 h2 h3 h4 h5 h6 n1 n2 n3 n4 n5 n6
  refine ⟨r, ?_, hlook, ?_⟩
  · simpa [QAEvaluator.call] using hr
  · intro k
    rw [hlook k]
    simp only [lastEmitter, altO_isSome, Option.isSome_none, Bool.or_false,
      Bool.false_or, Bool.or_eq_true]
    tauto

/-- C1 witness: the theorem applied to six concrete succeeding evaluators,
with a key collision on the metric name score between the similarity and F1
evaluators. -/
theorem seq_merge_union_last_wins_witness :
    ∃ r, QAEvaluator.call ⟨false, [wG, wR, wC, wF, wS, wF1]⟩ [] wIn = Except.ok r ∧
      (∀ k, Dict.lookup r k =
        lastEmitter [[("gpt_groundedness", 1)], [("gpt_relevance", 2)],
          [("gpt_coherence", 3)], [("gpt_fluency", 4)],
          [("score", 5), ("gpt_similarity", 5)],
          [("score", 6), ("f1_score", 6)]] k) ∧
      (∀ k, (Dict.lookup r k).isSome = true ↔
        ((Dict.lookup [("gpt_groundedness", 1)] k).isSome = true ∨
         (Dict.lookup [("gpt_relevance", 2)] k).isSome = true ∨
         (Dict.lookup [("gpt_coherence", 3)] k).isSome = true ∨
         (Dict.lookup [("gpt_fluency", 4)] k).isSome = true ∨
         (Dict.lookup [("score", 5), ("gpt_similarity", 5)] k).isSome = true ∨
         (Dict.lookup [("score", 6), ("f1_score", 6)] k).isSome = true)) :=
  seq_merge_union_last_wins wG wR wC wF wS wF1 wIn []
    [("gpt_groundedness", 1)] [("gpt_relevance", 2)] [("gpt_coherence", 3)]
    [("gpt_fluency", 4)] [("score", 5), ("gpt_similarity", 5)]
    [("score", 6), ("f1_score", 6)]
    rfl rfl rfl rfl rfl rfl (by decide) (by decide) (by decide) (by decide)
    (by decide) (by decide)

/-- C2: for every input tuple and every family of six collaborators that
all succeed (each returning a genuine dictionary), the parallel-mode call
run in any completion order that is a permutation of the collaborator list
returns a dictionary with exactly the same key set as the sequential-mode
call, and only the winning value on a colliding key may differ: at every
key whose emitters all carry one value — in particular at every key emitted
by a single collaborator — the two modes return the same value. -/
theorem par_seq_same_keyset {κ α ε : Type}
    (e1 e2 e3 e4 e5 e6 : Evaluator κ α ε) (input : QAInput κ)
    (order anyOrder : List (Evaluator κ α ε))
    (hperm : List.Perm order [e1, e2, e3, e4, e5, e6])
    (d1 d2 d3 d4 d5 d6 : Dict α)
    (h1 : e1 input = Except.ok d1) (h2 : e2 input = Except.ok d2)
    (h3 : e3 input = Except.ok d3) (h4 : e4 input = Except.ok d4)
    (h5 : e5 input = Except.ok d5) (h6 : e6 input = Except.ok d6)
    (n1 : (Dict.keys d1).Nodup) (n2 : (Dict.keys d2).Nodup)
    (n3 : (Dict.keys d3).Nodup) (n4 : (Dict.keys d4).Nodup)
    (n5 : (Dict.keys d5).Nodup) (n6 : (Dict.keys d6).Nodup) :
    ∃ r1 r2,
      QAEvaluator.call ⟨false, [e1, e2, e3, e4, e5, e6]⟩ anyOrder input = Except.ok r1 ∧
      QAEvaluator.call ⟨true, [e1, e2, e3, e4, e5, e6]⟩ order input = Except.ok r2 ∧
      (∀ k, ((Dict.lookup r1 k).isSome = true ↔ (Dict.lookup r2 k).isSome = true)) ∧
      (∀ k v,
        (∀ d ∈ [d1, d2, d3, d4, d5, d6],
          Dict.lookup d k = none ∨ Dict.lookup d k = some v) →
        Dict.lookup r1 k = Dict.lookup r2 k) := by
  have hall : ∀ ev ∈ [e1, e2, e3, e4, e5, e6], ∃ d, ev input = Except.ok d := by
    intro ev hm
    simp only [List.mem_cons, List.not_mem_nil, or_false] at hm
    rcases hm with rfl | rfl | rfl | rfl | rfl | rfl
    · exact ⟨d1, h1⟩
    · exact ⟨d2, h2⟩
    · exact ⟨d3, h3⟩
    · exact ⟨d4, h4⟩
    · exact ⟨d5, h5⟩
    · exact ⟨d6, h6⟩
  have hallo : ∀ ev ∈ order, ∃ d, ev input = Except.ok d :=
    fun ev hm => hall ev (hperm.mem_iff.1 hm)
  obtain ⟨r1, hr1, hl1⟩ := seqRun_lookup [e1, e2, e3, e4, e5, e6] input [] hall
  obtain ⟨r2, hr2, hl2⟩ := seqRun_lookup order input [] hallo
  refine ⟨r1, r2, ?_, ?_, ?_, ?_⟩
  · simpa [QAEvaluator.call] using hr1
  · simpa [QAEvaluator.call] using hr2
  · intro k
    rw [hl1 k, hl2 k]
    simp only [Dict.lookup, altO_none_right]
    exact (lastOut_isSome_perm order [e1, e2, e3, e4, e5, e6] input k hperm).symm
  · intro k v hagree
    have hmemd : ∀ ev ∈ [e1, e2, e3, e4, e5, e6],
        evalOut input ev k = none ∨ evalOut input ev k = some v := by
      intro ev hm
      simp only [List.mem_cons, List.not_mem_nil, or_false] at hm
      rcases hm with rfl | rfl | rfl | rfl | rfl | rfl
      · rw [evalOut_ok h1 k, Dict.lookupLast_nodup d1 k n1]
        exact hagree d1 (by simp)
      · rw [evalOut_ok h2 k, Dict.lookupLast_nodup d2 k n2]
        exact hagree d2 (by simp)
      · rw [evalOut_ok h3 k, Dict.lookupLast_nodup d3 k n3]
        exact hagree d3 (by simp)
      · rw [evalOut_ok h4 k, Dict.lookupLast_nodup d4 k n4]
        exact hagree d4 (by simp)
      · rw [evalOut_ok h5 k, Dict.lookupLast_nodup d5 k n5]
        exact hagree d5 (by simp)
      · rw [evalOut_ok h6 k, Dict.lookupLast_nodup d6 k n6]
        exact hagree d6 (by simp)
    have horder : ∀ ev ∈ order,
        evalOut input ev k = none ∨ evalOut input ev k = some v :=
      fun ev hm => hmemd ev (hperm.mem_iff.1 hm)
    rw [hl1 k, hl2 k]
    by_cases hex : ∃ ev ∈ [e1, e2, e3, e4, e5, e6], evalOut input ev k = some v
    · have ha := lastOut_unique [e1, e2, e3, e4, e5, e6] input k v hmemd hex
      have hb := lastOut_unique order input k v horder
        (by
          obtain ⟨ev, hm, he⟩ := hex
          exact ⟨ev, hperm.mem_iff.2 hm, he⟩)
      rw [ha, hb]
    · have hnone1 : lastOut [e1, e2, e3, e4, e5, e6] input k = none := by
        apply lastOut_none
        intro ev hm
        rcases hmemd ev hm with h0 | h0
        · exact h0
        · exact absurd ⟨ev, hm, h0⟩ hex
      have hnone2 : lastOut order input k = none := by
        apply lastOut_none
        intro ev hm
        rcases horder ev hm with h0 | h0
        · exact h0
        · exact absurd ⟨ev, hperm.mem_iff.1 hm, h0⟩ hex
      rw [hnone1, hnone2]

/-- C2 witness: the theorem applied to the six concrete evaluators, with
the reversed list as the parallel completion order; the only collision is
the metric name score. -/
theorem par_seq_same_keyset_witness :
    ∃ r1 r2,
      QAEvaluator.call ⟨false, [wG, wR, wC, wF, wS, wF1]⟩ [] wIn = Except.ok r1 ∧
      QAEvaluator.call ⟨true, [wG, wR, wC, wF, wS, wF1]⟩
        ([wG, wR, wC, wF, wS, wF1].reverse) wIn = Except.ok r2 ∧
      (∀ k, ((Dict.lookup r1 k).isSome = true ↔ (Dict.lookup r2 k).isSome = true)) ∧
      (∀ k v,
        (∀ d ∈ [[("gpt_groundedness", 1)], [("gpt_relevance", 2)],
            [("gpt_coherence", 3)], [("gpt_fluency", 4)],
            [("score", 5), ("gpt_similarity", 5)],
            [("score", 6), ("f1_score", 6)]],
          Dict.lookup d k = none ∨ Dict.lookup d k = some v) →
        Dict.lookup r1 k = Dict.lookup r2 k) :=
  par_seq_same_keyset wG wR wC wF wS wF1 wIn
    ([wG, wR, wC, wF, wS, wF1].reverse) [] (List.reverse_perm _)
    [("gpt_groundedness", 1)] [("gpt_relevance", 2)] [("gpt_coherence", 3)]
    [("gpt_fluency", 4)] [("score", 5), ("gpt_similarity", 5)]
    [("score", 6), ("f1_score", 6)]
    rfl rfl rfl rfl rfl rfl (by decide) (by decide) (by decide) (by decide)
    (by decide) (by decide)

/-- C3: if at least one of the six collaborators raises, the call raises in
both modes, the raised error is the unmodified error of a failing
collaborator, and no result dictionary is returned. -/
theorem failure_raises_both_modes {κ α ε : Type}
    (e1 e2 e3 e4 e5 e6 : Evaluator κ α ε) (input : QAInput κ)
    (order anyOrder : List (Evaluator κ α ε))
    (hperm : List.Perm order [e1, e2, e3, e4, e5, e6])
    (hfail : ∃ ev ∈ [e1, e2, e3, e4, e5, e6], ∃ e0, ev input = Except.error e0) :
    (∃ e, QAEvaluator.call ⟨false, [e1, e2, e3, e4, e5, e6]⟩ anyOrder input = Except.error e ∧
       ∃ ev ∈ [e1, e2, e3, e4, e5, e6], ev input = Except.error e) ∧
    (∃ e, QAEvaluator.call ⟨true, [e1, e2, e3, e4, e5, e6]⟩ order input = Except.error e ∧
       ∃ ev ∈ [e1, e2, e3, e4, e5, e6], ev input = Except.error e) := by
  constructor
  · obtain ⟨e, he, hmem⟩ := seqRun_error_of_mem [e1, e2, e3, e4, e5, e6] input [] hfail
    exact ⟨e, by simpa [QAEvaluator.call] using he, hmem⟩
  · have hfailo : ∃ ev ∈ order, ∃ e0, ev input = Except.error e0 := by
      obtain ⟨ev, hm, he⟩ := hfail
      exact ⟨ev, hperm.mem_iff.2 hm, he⟩
    obtain ⟨e, he, hmem⟩ := seqRun_error_of_mem order input [] hfailo
    refine ⟨e, by simpa [QAEvaluator.call] using he, ?_⟩
    obtain ⟨ev, hm, hev⟩ := hmem
    exact ⟨ev, hperm.mem_iff.1 hm, hev⟩

/-- C3 witness: the theorem applied with the F1 slot replaced by a raising
evaluator. -/
theorem failure_raises_both_modes_witness :
    (∃ e, QAEvaluator.call ⟨false, [wG, wR, wC, wF, wS, wBad]⟩ [] wIn = Except.error e ∧
       ∃ ev ∈ [wG, wR, wC, wF, wS, wBad], ev wIn = Except.error e) ∧
    (∃ e, QAEvaluator.call ⟨true, [wG, wR, wC, wF, wS, wBad]⟩
        [wG, wR, wC, wF, wS, wBad] wIn = Except.error e ∧
       ∃ ev ∈ [wG, wR, wC, wF, wS, wBad], ev wIn = Except.error e) :=
  failure_raises_both_modes wG wR wC wF wS wBad wIn
    [wG, wR, wC, wF, wS, wBad] [] (List.Perm.refl _)
    ⟨wBad, by simp, "boom", rfl⟩

/-- C4: in sequential mode, when the collaborators before position i all
succeed and collaborator i raises, the call returns exactly that error —
the merged results of the earlier collaborators are discarded — and the
collaborators after position i are never invoked: the outcome is identical
for any replacement of the tail of the list. -/
theorem seq_fail_stops_and_discards {κ α ε : Type}
    (pre post post2 : List (Evaluator κ α ε)) (ev : Evaluator κ α ε)
    (input : QAInput κ) (order : List (Evaluator κ α ε)) (e : ε)
    (hpre : ∀ p ∈ pre, ∃ d, p input = Except.ok d)
    (hev : ev input = Except.error e) :
    QAEvaluator.call ⟨false, pre ++ ev :: post⟩ order input = Except.error e ∧
    QAEvaluator.call ⟨false, pre ++ ev :: post2⟩ order input = Except.error e := by
  constructor
  · simpa [QAEvaluator.call] using seqRun_append_error pre ev post input [] e hpre hev
  · simpa [QAEvaluator.call] using seqRun_append_error pre ev post2 input [] e hpre hev

/-- C4 witness: two succeeding collaborators, then a raising one, with two
different tails. -/
theorem seq_fail_stops_and_discards_witness :
    QAEvaluator.call ⟨false, [wG, wR] ++ wBad :: [wC]⟩ [] wIn = Except.error "boom" ∧
    QAEvaluator.call ⟨false, [wG, wR] ++ wBad :: []⟩ [] wIn = Except.error "boom" :=
  seq_fail_stops_and_discards [wG, wR] [wC] [] wBad wIn [] "boom"
    (by
      intro p hm
      simp only [List.mem_cons, List.not_mem_nil, or_false] at hm
      rcases hm with rfl | rfl
      · exact ⟨_, rfl⟩
      · exact ⟨_, rfl⟩)
    rfl

theorem evalOut_spy {κ ε : Type} (kj ki : String) (input : QAInput κ) :
    evalOut (ε := ε) input (spyEvaluator kj) ki =
      if kj = ki then some input else none := by
  simp [evalOut, spyEvaluator, Dict.lookupLast, altO]

theorem spy_mem {κ ε : Type} (key : Fin 6 → String) (i : Fin 6) :
    spyEvaluator (key i) ∈ (spyList key : List (Evaluator κ (QAInput κ) ε)) := by
  fin_cases i <;> simp [spyList]

theorem spyList_shape {κ ε : Type} (key : Fin 6 → String)
    (ev : Evaluator κ (QAInput κ) ε) (hm : ev ∈ spyList key) :
    ∃ j : Fin 6, ev = spyEvaluator (key j) := by
  simp only [spyList, List.mem_cons, List.not_mem_nil, or_false] at hm
  rcases hm with rfl | rfl | rfl | rfl | rfl | rfl
  · exact ⟨0, rfl⟩
  · exact ⟨1, rfl⟩
  · exact ⟨2, rfl⟩
  · exact ⟨3, rfl⟩
  · exact ⟨4, rfl⟩
  · exact ⟨5, rfl⟩

theorem spyRun_lookup {κ ε : Type} (key : Fin 6 → String) (input : QAInput κ)
    (order : List (Evaluator κ (QAInput κ) ε))
    (hsub : ∀ ev ∈ order, ev ∈ (spyList key : List (Evaluator κ (QAInput κ) ε)))
    (hmem : ∀ i : Fin 6, spyEvaluator (key i) ∈ order) :
    ∃ r, seqRun order input [] = Except.ok r ∧
      ∀ i : Fin 6, Dict.lookup r (key i) = some input := by
  have hall : ∀ ev ∈ order, ∃ d, ev input = Except.ok d := by
    intro ev hm
    obtain ⟨j, rfl⟩ := spyList_shape key ev (hsub ev hm)
    exact ⟨_, rfl⟩
  obtain ⟨r, hr, hlook⟩ := seqRun_lookup order input [] hall
  refine ⟨r, hr, fun i => ?_⟩
  rw [hlook (key i)]
  have hlast : lastOut order input (key i) = some input := by
    apply lastOut_unique
    · intro ev hm
      obtain ⟨j, rfl⟩ := spyList_shape key ev (hsub ev hm)
      rw [evalOut_spy]
      by_cases h : key j = key i
      · right
        simp [h]
      · left
        simp [h]
    · refine ⟨spyEvaluator (key i), hmem i, ?_⟩
      simp [evalOut_spy]
  rw [hlast]
  rfl

/-- C5: the four required fields and all extra keyword arguments are
forwarded unchanged and identically to each of the six collaborators, in
both modes, with no validation or transformation by the component: six mock
collaborators that each report the received named-argument record under six
distinct metric names all report exactly the original input record — also
when the required strings are empty, since `input` is arbitrary. -/
theorem inputs_forwarded_to_all {κ ε : Type} (key : Fin 6 → String)
    (hinj : Function.Injective key) (input : QAInput κ)
    (order : List (Evaluator κ (QAInput κ) ε))
    (hperm : List.Perm order (spyList key)) :
    (∃ r, QAEvaluator.call ⟨false, spyList key⟩ order input = Except.ok r ∧
       ∀ i : Fin 6, Dict.lookup r (key i) = some input) ∧
    (∃ r, QAEvaluator.call ⟨true, spyList key⟩ order input = Except.ok r ∧
       ∀ i : Fin 6, Dict.lookup r (key i) = some input) := by
  constructor
  · obtain ⟨r, hr, hlook⟩ := spyRun_lookup key input (spyList key)
      (fun ev hm => hm) (fun i => spy_mem key i)
    exact ⟨r, by simpa [QAEvaluator.call] using hr, hlook⟩
  · obtain ⟨r, hr, hlook⟩ := spyRun_lookup key input order
      (fun ev hm => hperm.mem_iff.1 hm)
      (fun i => hperm.mem_iff.2 (spy_mem key i))
    exact ⟨r, by simpa [QAEvaluator.call] using hr, hlook⟩

/-- C5 witness: concrete input with empty required fields and a nonempty
extra keyword dictionary, spy order reversed for the parallel mode. -/
theorem inputs_forwarded_to_all_witness :
    (∃ r, QAEvaluator.call
        (⟨false, spyList wKey⟩ : QAEvaluator (Dict Nat) (QAInput (Dict Nat)) String)
        ((spyList wKey).reverse) wIn5 = Except.ok r ∧
       ∀ i : Fin 6, Dict.lookup r (wKey i) = some wIn5) ∧
    (∃ r, QAEvaluator.call
        (⟨true, spyList wKey⟩ : QAEvaluator (Dict Nat) (QAInput (Dict Nat)) String)
        ((spyList wKey).reverse) wIn5 = Except.ok r ∧
       ∀ i : Fin 6, Dict.lookup r (wKey i) = some wIn5) :=
  inputs_forwarded_to_all wKey (by decide) wIn5 ((spyList wKey).reverse)
    (List.reverse_perm _)

/-- C6: constructing the scorer without the parallel keyword yields an
instance whose flag is true (concurrent mode), and the flag is fixed: no
call changes it. -/
theorem default_mode_concurrent {Config κ α ε : Type}
    (C : EvaluatorClasses Config κ α ε) (model_config : Config) :
    (QAEvaluator.initDefault C model_config)._parallel = true ∧
    ∀ (order : List (Evaluator κ α ε)) (input : QAInput κ),
      ((QAEvaluator.initDefault C model_config).callSt order input).2._parallel = true :=
  ⟨rfl, fun _ _ => rfl⟩

/-- C7: the constructor builds exactly six collaborator instances, the
first five from the caller-supplied model configuration verbatim and the F1
instance without configuration, and performs nothing else: when every
constructor succeeds the instance holds exactly those six in order, and any
construction failure is the unmodified error of one of the six constructor
calls. -/
theorem init_six_evaluators {Config κ α ε : Type}
    (C : EvaluatorClassesF Config κ α ε) (model_config : Config) (parallel : Bool) :
    (∀ e, QAEvaluator.initF C model_config parallel = Except.error e →
       (C.GroundednessEvaluator model_config = Except.error e ∨
        C.RelevanceEvaluator model_config = Except.error e ∨
        C.CoherenceEvaluator model_config = Except.error e ∨
        C.FluencyEvaluator model_config = Except.error e ∨
        C.SimilarityEvaluator model_config = Except.error e ∨
        C.F1ScoreEvaluator = Except.error e)) ∧
    (∀ g r c f s f1,
       C.GroundednessEvaluator model_config = Except.ok g →
       C.RelevanceEvaluator model_config = Except.ok r →
       C.CoherenceEvaluator model_config = Except.ok c →
       C.FluencyEvaluator model_config = Except.ok f →
       C.SimilarityEvaluator model_config = Except.ok s →
       C.F1ScoreEvaluator = Except.ok f1 →
       QAEvaluator.initF C model_config parallel =
         Except.ok ⟨parallel, [g, r, c, f, s, f1]⟩) := by
  constructor
  · intro e he
    unfold QAEvaluator.initF at he
    cases h1 : C.GroundednessEvaluator model_config with
    | error e1 =>
      rw [h1] at he
      simp at he
      exact Or.inl (by rw [he])
    | ok g =>
      rw [h1] at he
      cases h2 : C.RelevanceEvaluator model_config with
      | error e2 =>
        rw [h2] at he
        simp at he
        exact Or.inr (Or.inl (by rw [he]))
      | ok r =>
        rw [h2] at he
        cases h3 : C.CoherenceEvaluator model_config with
        | error e3 =>
          rw [h3] at he
          simp at he
          exact Or.inr (Or.inr (Or.inl (by rw [he])))
        | ok c =>
          rw [h3] at he
          cases h4 : C.FluencyEvaluator model_config with
          | error e4 =>
            rw [h4] at he
            simp at he
            exact Or.inr (Or.inr (Or.inr (Or.inl (by rw [he]))))
          | ok f =>
            rw [h4] at he
            cases h5 : C.SimilarityEvaluator model_config with
            | error e5 =>
              rw [h5] at he
              simp at he
              exact Or.inr (Or.inr (Or.inr (Or.inr (Or.inl (by rw [he])))))
            | ok s =>
              rw [h5] at he
              cases h6 : C.F1ScoreEvaluator with
              | error e6 =>
                rw [h6] at he
                simp at he
                exact Or.inr (Or.inr (Or.inr (Or.inr (Or.inr (by rw [he])))))
              | ok f1 =>
                rw [h6] at he
                simp at he
  · intro g r c f s f1 hg hr hc hf hs hf1
    unfold QAEvaluator.initF
    rw [hg, hr, hc, hf, hs, hf1]

/-- C7 witness: the fallible constructor applied to six succeeding
constructor calls yields exactly the six evaluators in order. -/
theorem init_six_evaluators_witness :
    QAEvaluator.initF wClassesF () true =
      Except.ok ⟨true, [wG, wR, wC, wF, wS, wF1]⟩ :=
  (init_six_evaluators wClassesF () true).2 wG wR wC wF wS wF1
    rfl rfl rfl rfl rfl rfl

/-- C8: a call leaves the instance unchanged: the post state of any call,
whether it returns or raises, is the instance itself, so the collaborator
list and the mode flag persist and no mutable state carries over between
calls. -/
theorem call_leaves_instance_unchanged {κ α ε : Type}
    (self : QAEvaluator κ α ε) (order : List (Evaluator κ α ε))
    (input : QAInput κ) :
    (QAEvaluator.callSt self order input).2 = self := rfl

/-- C9: the evaluator list is built in the fixed order Groundedness,
Relevance, Coherence, Fluency, Similarity, F1Score, no call mutates it, and
consequently in sequential mode the F1 value wins every metric-name
collision, and among the model-based evaluators the later-listed one wins
whenever no still-later evaluator emits the key. -/
theorem evaluator_order_fixed_last_wins {Config κ α ε : Type}
    (C : EvaluatorClasses Config κ α ε) (model_config : Config) (parallel : Bool)
    (input : QAInput κ) (order : List (Evaluator κ α ε))
    (d1 d2 d3 d4 d5 d6 : Dict α)
    (h1 : C.GroundednessEvaluator model_config input = Except.ok d1)
    (h2 : C.RelevanceEvaluator model_config input = Except.ok d2)
    (h3 : C.CoherenceEvaluator model_config input = Except.ok d3)
    (h4 : C.FluencyEvaluator model_config input = Except.ok d4)
    (h5 : C.SimilarityEvaluator model_config input = Except.ok d5)
    (h6 : C.F1ScoreEvaluator input = Except.ok d6)
    (n1 : (Dict.keys d1).Nodup) (n2 : (Dict.keys d2).Nodup)
    (n3 : (Dict.keys d3).Nodup) (n4 : (Dict.keys d4).Nodup)
    (n5 : (Dict.keys d5).Nodup) (n6 : (Dict.keys d6).Nodup) :
    (QAEvaluator.init C model_config parallel)._evaluators =
      [C.GroundednessEvaluator model_config, C.RelevanceEvaluator model_config,
       C.CoherenceEvaluator model_config, C.FluencyEvaluator model_config,
       C.SimilarityEvaluator model_config, C.F1ScoreEvaluator] ∧
    (∀ (o2 : List (Evaluator κ α ε)) (input2 : QAInput κ),
      ((QAEvaluator.init C model_config parallel).callSt o2 input2).2._evaluators =
        (QAEvaluator.init C model_config parallel)._evaluators) ∧
    (∃ r, QAEvaluator.call (QAEvaluator.init C model_config false) order input =
        Except.ok r ∧
      ∀ k v,
        (Dict.lookup d6 k = some v → Dict.lookup r k = some v) ∧
        (Dict.lookup d6 k = none → Dict.lookup d5 k = some v →
          Dict.lookup r k = some v) ∧
        (Dict.lookup d6 k = none → Dict.lookup d5 k = none →
          Dict.lookup d4 k = some v → Dict.lookup r k = some v) ∧
        (Dict.lookup d6 k = none → Dict.lookup d5 k = none →
          Dict.lookup d4 k = none → Dict.lookup d3 k = some v →
          Dict.lookup r k = some v) ∧
        (Dict.lookup d6 k = none → Dict.lookup d5 k = none →
          Dict.lookup d4 k = none → Dict.lookup d3 k = none →
          Dict.lookup d2 k = some v → Dict.lookup r k = some v) ∧
        (Dict.lookup d6 k = none → Dict.lookup d5 k = none →
          Dict.lookup d4 k = none → Dict.lookup d3 k = none →
          Dict.lookup d2 k = none → Dict.lookup d1 k = some v →
          Dict.lookup r k = some v)) := by
  refine ⟨rfl, fun o2 input2 => rfl, ?_⟩
  obtain ⟨r, hr, hlook⟩ :=
    seqSix_lookup _ _ _ _ _ _ input d1 d2 d3 d4 d5 d6
      h1 h2 h3 h4 h5 h6 n1 n2 n3 n4 n5 n6
  refine ⟨r, ?_, ?_⟩
  · simpa [QAEvaluator.call, QAEvaluator.init] using hr
  · intro k v
    have hk := hlook k
    refine ⟨?_, ?_, ?_, ?_, ?_, ?_⟩
    · intro q6
      rw [hk]
      simp [lastEmitter, altO, q6]
    · intro q6 q5
      rw [hk]
      simp [lastEmitter, altO, q6, q5]
    · intro q6 q5 q4
      rw [hk]
      simp [lastEmitter, altO, q6, q5, q4]
    · intro q6 q5 q4 q3
      rw [hk]
      simp [lastEmitter, altO, q6, q5, q4, q3]
    · intro q6 q5 q4 q3 q2
      rw [hk]
      simp [lastEmitter, altO, q6, q5, q4, q3, q2]
    · intro q6 q5 q4 q3 q2 q1
      rw [hk]
      simp [lastEmitter, altO, q6, q5, q4, q3, q2, q1]

/-- C9 witness: the concrete classes, with the score collision won by the
F1 evaluator. -/
theorem evaluator_order_fixed_last_wins_witness :
    (QAEvaluator.init wClasses () true)._evaluators =
      [wClasses.GroundednessEvaluator (), wClasses.RelevanceEvaluator (),
       wClasses.CoherenceEvaluator (), wClasses.FluencyEvaluator (),
       wClasses.SimilarityEvaluator (), wClasses.F1ScoreEvaluator] ∧
    (∀ (o2 : List (Evaluator Unit Nat String)) (input2 : QAInput Unit),
      ((QAEvaluator.init wClasses () true).callSt o2 input2).2._evaluators =
        (QAEvaluator.init wClasses () true)._evaluators) ∧
    (∃ r, QAEvaluator.call (QAEvaluator.init wClasses () false) [] wIn =
        Except.ok r ∧
      ∀ k v,
        (Dict.lookup [("score", 6), ("f1_score", 6)] k = some v →
          Dict.lookup r k = some v) ∧
        (Dict.lookup [("score", 6), ("f1_score", 6)] k = none →
          Dict.lookup [("score", 5), ("gpt_similarity", 5)] k = some v →
          Dict.lookup r k = some v) ∧
        (Dict.lookup [("score", 6), ("f1_score", 6)] k = none →
          Dict.lookup [("score", 5), ("gpt_similarity", 5)] k = none →
          Dict.lookup [("gpt_fluency", 4)] k = some v →
          Dict.lookup r k = some v) ∧
        (Dict.lookup [("score", 6), ("f1_score", 6)] k = none →
          Dict.lookup [("score", 5), ("gpt_similarity", 5)] k = none →
          Dict.lookup [("gpt_fluency", 4)] k = none →
          Dict.lookup [("gpt_coherence", 3)] k = some v →
          Dict.lookup r k = some v) ∧
        (Dict.lookup [("score", 6), ("f1_score", 6)] k = none →
          Dict.lookup [("score", 5), ("gpt_similarity", 5)] k = none →
          Dict.lookup [("gpt_fluency", 4)] k = none →
          Dict.lookup [("gpt_coherence", 3)] k = none →
          Dict.lookup [("gpt_relevance", 2)] k = some v →
          Dict.lookup r k = some v) ∧
        (Dict.lookup [("score", 6), ("f1_score", 6)] k = none →
          Dict.lookup [("score", 5), ("gpt_similarity", 5)] k = none →
          Dict.lookup [("gpt_fluency", 4)] k = none →
          Dict.lookup [("gpt_coherence", 3)] k = none →
          Dict.lookup [("gpt_relevance", 2)] k = none →
          Dict.lookup [("gpt_groundedness", 1)] k = some v →
          Dict.lookup r k = some v)) :=
  evaluator_order_fixed_last_wins wClasses () true wIn []
    [("gpt_groundedness", 1)] [("gpt_relevance", 2)] [("gpt_coherence", 3)]
    [("gpt_fluency", 4)] [("score", 5), ("gpt_similarity", 5)]
    [("score", 6), ("f1_score", 6)]
    rfl rfl rfl rfl rfl rfl (by decide) (by decide) (by decide) (by decide)
    (by decide) (by decide)

/-- C10: sequential mode is deterministic: a second call, performed on the
instance a first call leaves behind, with the same input and the same
collaborator functions, returns the same result dictionary, whatever
completion orders the scheduler parameter carries. -/
theorem seq_deterministic {κ α ε : Type} (self : QAEvaluator κ α ε)
    (o1 o2 o3 : List (Evaluator κ α ε)) (input : QAInput κ)
    (h : self._parallel = false) :
    (QAEvaluator.callSt self o1 input).1 =
      ((QAEvaluator.callSt self o2 input).2.callSt o3 input).1 := by
  simp [QAEvaluator.callSt, QAEvaluator.call, h]

/-- C10 witness: two consecutive calls of a concrete sequential instance. -/
theorem seq_deterministic_witness :
    (QAEvaluator.callSt ⟨false, [wG, wR, wC, wF, wS, wF1]⟩ [] wIn).1 =
      ((QAEvaluator.callSt ⟨false, [wG, wR, wC, wF, wS, wF1]⟩ [wBad] wIn).2.callSt
        [] wIn).1 :=
  seq_deterministic ⟨false, [wG, wR, wC, wF, wS, wF1]⟩ [] [wBad] [] wIn rfl
